import Mathlib

/-!
# Verification of the AutoSort-AI document placement core

Shallow embedding of the classification-result-to-storage pipeline of the
repository: `src/utils/file_operations.py` (path sanitizing, backup, the
collision-probing loop and the move) and `src/document_classifier.py`
(per-document organizing loop and batch bookkeeping).

Strings are modelled as `List Char` (`Str`), filesystem paths as lists of
path segments, and the filesystem as an association list from paths to file
contents.  I/O primitives (`shutil.move`, `shutil.copy2`) are modelled by
explicit state transitions; whether a fallible primitive succeeds is an
environment parameter, and a failed primitive leaves the modelled state
unchanged (matching the atomic-or-nothing reading the code relies on).
-/

namespace AutoSort

/-- Strings as character lists. -/
abbrev Str := List Char

/-- A filesystem path as a list of segments. -/
abbrev FsPath := List Str

/-- The filesystem: an association list from paths to file contents. -/
abbrev FS := List (FsPath × Str)

/-- Drop the longest run of characters from `set` at the front of `l`
(the one-sided half of Python's `str.strip`). -/
def dropWhileSet (set : List Char) : Str → Str
  | [] => []
  | c :: rest => if c ∈ set then dropWhileSet set rest else c :: rest

/-- Python's `str.strip(chars)`: remove the characters of `set` from both
ends of `l`. -/
def pyStrip (set : List Char) (l : Str) : Str :=
  (dropWhileSet set (dropWhileSet set l).reverse).reverse

/-- The characters removed by Python's no-argument `str.strip()` (ASCII
whitespace; the inputs of this development are ASCII). -/
def wsChars : List Char := [' ', '\t', '\n', '\r', '\x0b', '\x0c']

/-- Python's `str.strip()` with no argument. -/
def pyStripWs (l : Str) : Str := pyStrip wsChars l

/-- `startsWith pat l` tests whether `pat` is an initial run of `l`
(Python's `str.startswith`). -/
def startsWith : Str → Str → Bool
  | [], _ => true
  | _ :: _, [] => false
  | p :: ps, c :: cs => decide (p = c) && startsWith ps cs

/-- Fuelled worker for `replaceSub`. The fuel is an upper bound on the
number of steps; each step consumes at least one input character. -/
def replaceSubGo (pat rep : Str) : Nat → Str → Str
  | _, [] => []
  | 0, l => l
  | fuel + 1, c :: rest =>
      if startsWith pat (c :: rest) then
        rep ++ replaceSubGo pat rep fuel (List.drop (pat.length - 1) rest)
      else
        c :: replaceSubGo pat rep fuel rest

/-- Python's `str.replace(pat, rep)`: left-to-right, non-overlapping
substring replacement (used for `pat` non-empty). -/
def replaceSub (pat rep s : Str) : Str :=
  replaceSubGo pat rep s.length s

/-- Python's `str.split(sep)` with an explicit one-character separator:
splits on every occurrence and keeps empty pieces. -/
def pySplit (sep : Char) : Str → List Str
  | [] => [[]]
  | c :: rest =>
      if c = sep then
        [] :: pySplit sep rest
      else
        match pySplit sep rest with
        | [] => [[c]]
        | s :: ss => (c :: s) :: ss

/-- `pathlib` path join with a string argument: the string is split on
`'/'` and empty and single-dot components are dropped. -/
def pyJoinStr (p : FsPath) (s : Str) : FsPath :=
  p ++ (pySplit '/' s).filter (fun seg => decide (seg ≠ [] ∧ seg ≠ ['.']))

/-- `str()` of a relative `pathlib` path: segments joined by `'/'`. -/
def pathToString (p : FsPath) : Str :=
  List.intercalate ['/'] p

/-- `pathlib.Path.name`: the final path segment. -/
def pathName (p : FsPath) : Str :=
  p.getLast?.getD []

/-- Case split of `splitExt` on the part of the reversed name from its
last dot on (`post`): no dot at all, or a dot with `rest` before it and
`pre` after it in the original name. -/
def splitExtAux (l pre : Str) : Str → Str × Str
  | [] => (l, [])
  | _ :: rest =>
      if rest = [] ∨ pre = [] then (l, [])
      else (rest.reverse, '.' :: pre.reverse)

/-- Split a file name at its last dot following CPython's
`pathlib.PurePath.stem`/`.suffix` rules: the split happens only when the
last dot is at an index `i` with `0 < i < len - 1`. -/
def splitExt (l : Str) : Str × Str :=
  splitExtAux l (l.reverse.takeWhile (fun c => decide (c ≠ '.')))
    (l.reverse.dropWhile (fun c => decide (c ≠ '.')))

/-- `pathlib.PurePath.stem` of a file name. -/
def pyStem (l : Str) : Str := (splitExt l).1

/-- `pathlib.PurePath.suffix` of a file name. -/
def pySuffix (l : Str) : Str := (splitExt l).2

/-- The decimal digit character for `m < 10`. -/
def digitChar (m : Nat) : Char := Char.ofNat (48 + m)

/-- Fuelled most-significant-first decimal digit printer. -/
def natDigitsGo : Nat → Nat → Str → Str
  | 0, _, acc => acc
  | fuel + 1, n, acc =>
      if n < 10 then digitChar n :: acc
      else natDigitsGo fuel (n / 10) (digitChar (n % 10) :: acc)

/-- Decimal representation of a natural number, as produced by Python's
f-string formatting of an `int`. -/
def natDigits (n : Nat) : Str := natDigitsGo (n + 1) n []

/-- The numeric value of a most-significant-first digit string (left
inverse of `natDigits`, used to prove its injectivity). -/
def dsVal (ds : Str) : Nat :=
  ds.foldl (fun a c => 10 * a + (c.toNat - 48)) 0

/-- `file_operations.sanitize_path`: the list of characters it replaces. -/
def invalidChars : List Char := ['<', '>', ':', '"', '/', '\\', '|', '?', '*']

/-- One pass of Python's `str.replace(char, '_')` for a single character. -/
def replaceAllChar (ch repl : Char) (s : Str) : Str :=
  s.map (fun c => if c = ch then repl else c)

/-- `file_operations.sanitize_path`: replace each invalid character by an
underscore (one `str.replace` per character, folded in order), then
`strip('. ')`. -/
def sanitize_path (path_str : Str) : Str :=
  pyStrip ['.', ' '] (invalidChars.foldl (fun acc ch => replaceAllChar ch '_' acc) path_str)

/-- The category-label parsing of `move_document_to_category`: replace
`" > "` and then `">"` by `"/"`, split on `"/"`, and sanitize each piece
after `strip()`ping it. -/
def resolveCategoryParts (category : Str) : List Str :=
  let c1 := replaceSub " > ".data "/".data category
  let c2 := replaceSub ">".data "/".data c1
  (pySplit '/' c2).map (fun part => sanitize_path (pyStripWs part))

/-- The directory chain built by `move_document_to_category`:
`category_path = output_base_dir` then `category_path = category_path / part`
for each sanitized part. -/
def categoryPathOf (output_base_dir : FsPath) (category : Str) : FsPath :=
  (resolveCategoryParts category).foldl pyJoinStr output_base_dir

/-- Look a path up in the modelled filesystem. -/
def fsLookup : FS → FsPath → Option Str
  | [], _ => none
  | (q, c) :: rest, p => if q = p then some c else fsLookup rest p

/-- Whether a path exists in the modelled filesystem (`Path.exists()`). -/
def memFS (st : FS) (p : FsPath) : Bool :=
  (fsLookup st p).isSome

/-- `shutil.move`: the source entry is removed and its content reappears at
the destination.  A missing source is left to the caller (who has checked
existence); the model then leaves the state unchanged. -/
def fsMove (st : FS) (src dst : FsPath) : FS :=
  match fsLookup st src with
  | some c => (dst, c) :: st.filter (fun e => decide (e.1 ≠ src))
  | none => st

/-- The character replacement of `sanitize_path`, pointwise: an invalid
character becomes an underscore, anything else is kept. -/
def sanitizeChar (c : Char) : Char :=
  if c ∈ invalidChars then '_' else c

/-- Modelled from the claim wording for the sanitizer: replace every
occurrence of each of the nine invalid characters by a single underscore,
then remove all leading and trailing whitespace and dot characters. -/
def sanitizeClaimRef (s : Str) : Str :=
  pyStrip (wsChars ++ ['.']) (s.map sanitizeChar)

/-- The sanitizer reference with the trimmed set corrected to space and
dot characters (what the code's `strip('. ')` removes). -/
def sanitizeSpaceRef (s : Str) : Str :=
  pyStrip [' ', '.'] (s.map sanitizeChar)

/-- The duplicate-file-name loop of `move_document_to_category`: while the
candidate exists, the next candidate is
`f"{original_stem}_{counter}{dest_path.suffix}"` where `dest_path` is the
current candidate, and the counter increments.  Fuelled; each probe
consumes one unit. -/
def probeLoop (st : FS) (dir : FsPath) (stem : Str) : Nat → Str → Nat → Str
  | 0, cand, _ => cand
  | fuel + 1, cand, counter =>
      if memFS st (dir ++ [cand]) then
        probeLoop st dir stem fuel (stem ++ ('_' :: natDigits counter) ++ pySuffix cand) (counter + 1)
      else cand

/-- Resolve the collision-free destination file name for `name` inside
`dir`: the candidate `name` itself, then the suffixed candidates of the
loop.  `st.length + 1` probes always suffice, because the candidates are
pairwise distinct. -/
def resolveCollision (st : FS) (dir : FsPath) (name : Str) : Str :=
  probeLoop st dir (pyStem name) (st.length + 1) name 1

/-- The candidate the loop, read naively, would produce at counter `n`:
the original stem, an underscore, the counter, the original suffix
(`stem_n.ext` of the claims). -/
def suffixedName (name : Str) (n : Nat) : Str :=
  pyStem name ++ ('_' :: natDigits n) ++ pySuffix name

/-- The sequence of candidates the loop actually probes: the original
name, then at each step the original stem, an underscore, the counter,
and the suffix of the *previous* candidate (the loop re-reads
`dest_path.suffix` from the reassigned `dest_path`). -/
def probeCand (name : Str) : Nat → Str
  | 0 => name
  | k + 1 => pyStem name ++ ('_' :: natDigits (k + 1)) ++ pySuffix (probeCand name k)

/-- The destination path `move_document_to_category` moves the file to:
the sanitized category directory chain plus the collision-resolved file
name. -/
def destPathOf (st : FS) (output_base_dir : FsPath) (category : Str) (file_path : FsPath) : FsPath :=
  let category_path := categoryPathOf output_base_dir category
  category_path ++ [resolveCollision st category_path (pathName file_path)]

/-- Per-document environment for the fallible I/O of one placement:
whether the backup copy succeeds, whether the move succeeds, and the
timestamp string used for the backup subdirectory. -/
structure MoveEnv where
  backupOk : Bool
  moveOk : Bool
  timestamp : Str
deriving DecidableEq

/-- `file_operations.move_document_to_category`: parse the category, build
the directory chain, resolve the duplicate-free destination, optionally
attempt a backup (`create_backup`: copy into
`output_base_dir/_backups/<timestamp>/<name>`; its failure only logs), and
move.  Returns `(True, new state)` on success and `(False, state)` when
the move raises. -/
def move_document_to_category (env : MoveEnv) (st : FS) (file_path : FsPath)
    (category : Str) (output_base_dir : FsPath) (create_backups : Bool) : Bool × FS :=
  let name := pathName file_path
  let dest_path := destPathOf st output_base_dir category file_path
  let st1 :=
    if create_backups then
      if env.backupOk then
        match fsLookup st file_path with
        | some content =>
            (output_base_dir ++ ["_backups".data, env.timestamp, name], content) :: st
        | none => st
      else st
    else st
  if env.moveOk then (true, fsMove st1 file_path dest_path) else (false, st1)

/-- The per-document terminal statuses recorded by
`classify_and_organize_documents`. -/
inductive DocStatus
  | SUCCESS
  | CLASSIFICATION_FAILED
  | FILE_NOT_FOUND
  | MOVE_FAILED
deriving DecidableEq

/-- A classification result record as built by `classify_documents` and
mutated by the organizing loop (`status`, `error_message` and
`new_location` start absent). -/
structure ClassifiedDoc where
  file_name : Str
  subcategory : Str
  status : Option DocStatus := none
  error_message : Option Str := none
  new_location : Option Str := none
deriving DecidableEq

/-- The classification-failure sentinel test: the organizing loop skips a
document whose label starts with `"ERROR:"`. -/
def sentinelMark : Str := "ERROR:".data

/-- The label `classify_documents` records when the model call raises. -/
def errorSentinel : Str := "ERROR: Classification failed".data

/-- The generic message recorded with a `MOVE_FAILED` status. -/
def moveFailMsg : Str := "Failed to move file to category folder".data

/-- One iteration of the organizing loop of
`classify_and_organize_documents`, for one classified document. -/
def processOne (env : MoveEnv) (input_dir output_base : FsPath)
    (create_backups : Bool) (st : FS) (doc : ClassifiedDoc) : ClassifiedDoc × FS :=
  if startsWith sentinelMark doc.subcategory then
    ({ doc with status := some .CLASSIFICATION_FAILED, error_message := some doc.subcategory }, st)
  else
    let source_path := pyJoinStr input_dir doc.file_name
    if memFS st source_path then
      let r := move_document_to_category env st source_path doc.subcategory output_base create_backups
      if r.1 then
        ({ doc with status := some .SUCCESS,
                    new_location :=
                      some (pathToString (pyJoinStr (pyJoinStr output_base doc.subcategory) doc.file_name)) },
         r.2)
      else
        ({ doc with status := some .MOVE_FAILED, error_message := some moveFailMsg }, r.2)
    else
      ({ doc with status := some .FILE_NOT_FOUND }, st)

/-- The organizing loop over all classified documents, threading the
filesystem state; each document carries its own `MoveEnv`. -/
def organizeLoop (input_dir output_base : FsPath) (create_backups : Bool) :
    List (ClassifiedDoc × MoveEnv) → FS → List ClassifiedDoc × FS
  | [], st => ([], st)
  | (doc, env) :: rest, st =>
      let r := processOne env input_dir output_base create_backups st doc
      let rr := organizeLoop input_dir output_base create_backups rest r.2
      (r.1 :: rr.1, rr.2)

/-- `DocumentClassifier.classify_documents`: one record per input document;
a model response is `strip()`ped into `subcategory`, a model failure
records the error sentinel.  The per-document model outcome (`some`
response or `none` for an exception) is an environment input. -/
def classify_documents (outcomes : List (Option Str)) (documents : List (Str × Str)) :
    List ClassifiedDoc :=
  (documents.zip outcomes).map fun d =>
    match d.2 with
    | some response => { file_name := d.1.1, subcategory := pyStripWs response }
    | none => { file_name := d.1.1, subcategory := errorSentinel }

/-- Per-document environment for a whole batch run: the model outcome and
the placement I/O outcomes. -/
structure DocCtx where
  outcome : Option Str
  backupOk : Bool
  moveOk : Bool
  timestamp : Str
deriving DecidableEq

/-- Environment for one batch: whether `create_category_folders` succeeds,
and the per-document contexts (one per input document). -/
structure BatchEnv where
  rootOk : Bool
  docs : List DocCtx
deriving DecidableEq

/-- The `MoveEnv` of a per-document context. -/
def DocCtx.moveEnv (c : DocCtx) : MoveEnv :=
  { backupOk := c.backupOk, moveOk := c.moveOk, timestamp := c.timestamp }

/-- `DocumentClassifier.classify_and_organize_documents`: empty input
returns `[]` at once; then all documents are classified; if creating the
output directory structure fails the classification records are returned
as they are; otherwise the organizing loop runs over every record.  The
returned state is the final filesystem. -/
def classify_and_organize_documents (env : BatchEnv) (documents : List (Str × Str))
    (input_dir output_dir : FsPath) (create_backups : Bool) (st : FS) :
    List ClassifiedDoc × FS :=
  if documents.isEmpty then ([], st)
  else
    let classified := classify_documents (env.docs.map (·.outcome)) documents
    if env.rootOk then
      organizeLoop input_dir output_dir create_backups
        (classified.zip (env.docs.map (·.moveEnv))) st
    else
      (classified, st)

/-- Count the records carrying a given terminal status. -/
def countStatus (records : List ClassifiedDoc) (s : DocStatus) : Nat :=
  records.countP (fun d => decide (d.status = some s))

/-- The sum of the counts of all four terminal statuses. -/
def statusTotal (records : List ClassifiedDoc) : Nat :=
  countStatus records .SUCCESS + countStatus records .CLASSIFICATION_FAILED +
    countStatus records .FILE_NOT_FOUND + countStatus records .MOVE_FAILED

/-- A one-document batch environment whose classifier answers
`"Healthcare > Lab Results"` and whose I/O all succeeds. -/
def exBatchEnv : BatchEnv :=
  { rootOk := true,
    docs := [{ outcome := some "Healthcare > Lab Results".data, backupOk := false,
               moveOk := true, timestamp := "ts".data }] }

/-- A source filesystem holding the single document `in/a.pdf`. -/
def exSourceFS : FS := [(["in".data, "a.pdf".data], "content".data)]

/-- The run of the scenario of the end-to-end example: classify and
organize `a.pdf` out of `in/` into `out/`. -/
def exRun : List ClassifiedDoc × FS :=
  classify_and_organize_documents exBatchEnv [("a.pdf".data, "text".data)]
    ["in".data] ["out".data] false exSourceFS

/-- A one-document batch environment whose output-root creation fails. -/
def exRootFailEnv : BatchEnv :=
  { rootOk := false,
    docs := [{ outcome := some "X".data, backupOk := true, moveOk := true,
               timestamp := "ts".data }] }

/-- The run with the failing output-root creation. -/
def exRootFailRun : List ClassifiedDoc × FS :=
  classify_and_organize_documents exRootFailEnv [("a.pdf".data, "t".data)]
    ["in".data] ["out".data] true exSourceFS

/-- A directory snapshot holding `d/file.` and `d/file._1`, the collision
counterexample. -/
def exCollisionFS : FS :=
  [(["d".data, "file.".data], []), (["d".data, "file._1".data], [])]

/-- A directory snapshot holding only `d/b.pdf`, for a collision witness. -/
def exWitnessFS : FS := [(["d".data, "b.pdf".data], [])]

/-! ## Lemmas about `dropWhileSet` and `pyStrip` -/

theorem mem_of_mem_dropWhileSet {set : List Char} {l : Str} {c : Char}
    (h : c ∈ dropWhileSet set l) : c ∈ l := by
  induction l with
  | nil => simp [dropWhileSet] at h
  | cons a rest ih =>
      by_cases ha : a ∈ set
      · simp only [dropWhileSet, if_pos ha] at h
        exact List.mem_cons_of_mem _ (ih h)
      · simpa [dropWhileSet, if_neg ha] using h

theorem head?_dropWhileSet {set : List Char} {l : Str} {c : Char}
    (h : (dropWhileSet set l).head? = some c) : c ∉ set := by
  induction l with
  | nil => simp [dropWhileSet] at h
  | cons a rest ih =>
      by_cases ha : a ∈ set
      · rw [dropWhileSet, if_pos ha] at h
        exact ih h
      · rw [dropWhileSet, if_neg ha] at h
        simp only [List.head?_cons, Option.some.injEq] at h
        exact h ▸ ha

theorem dropWhileSet_eq_self {set : List Char} {l : Str}
    (h : ∀ c, l.head? = some c → c ∉ set) : dropWhileSet set l = l := by
  cases l with
  | nil => rfl
  | cons a rest =>
      have : a ∉ set := h a rfl
      simp [dropWhileSet, this]

theorem exists_append_dropWhileSet (set : List Char) (l : Str) :
    ∃ t, l = t ++ dropWhileSet set l := by
  induction l with
  | nil => exact ⟨[], rfl⟩
  | cons a rest ih =>
      by_cases ha : a ∈ set
      · obtain ⟨t, ht⟩ := ih
        exact ⟨a :: t, by simp [dropWhileSet, if_pos ha, ← ht]⟩
      · exact ⟨[], by simp [dropWhileSet, if_neg ha]⟩

theorem getLast?_dropWhileSet {set : List Char} {l : Str}
    (h : dropWhileSet set l ≠ []) : (dropWhileSet set l).getLast? = l.getLast? := by
  obtain ⟨t, ht⟩ := exists_append_dropWhileSet set l
  conv_rhs => rw [ht]
  exact (List.getLast?_append_of_ne_nil t h).symm

theorem dropWhileSet_idem (set : List Char) (l : Str) :
    dropWhileSet set (dropWhileSet set l) = dropWhileSet set l := by
  apply dropWhileSet_eq_self
  intro c hc
  exact head?_dropWhileSet hc

theorem mem_of_mem_pyStrip {set : List Char} {l : Str} {c : Char}
    (h : c ∈ pyStrip set l) : c ∈ l := by
  unfold pyStrip at h
  rw [List.mem_reverse] at h
  have := mem_of_mem_dropWhileSet h
  rw [List.mem_reverse] at this
  exact mem_of_mem_dropWhileSet this

theorem getLast?_pyStrip_not_mem {set : List Char} {l : Str} {c : Char}
    (h : (pyStrip set l).getLast? = some c) : c ∉ set := by
  unfold pyStrip at h
  rw [List.getLast?_reverse] at h
  exact head?_dropWhileSet h

theorem head?_pyStrip_not_mem {set : List Char} {l : Str} {c : Char}
    (h : (pyStrip set l).head? = some c) : c ∉ set := by
  unfold pyStrip at h
  rw [List.head?_reverse] at h
  have hne : dropWhileSet set (dropWhileSet set l).reverse ≠ [] := by
    intro hnil
    rw [hnil] at h
    simp at h
  rw [getLast?_dropWhileSet hne, List.getLast?_reverse] at h
  exact head?_dropWhileSet h

theorem pyStrip_eq_self {set : List Char} {l : Str}
    (h1 : ∀ c, l.head? = some c → c ∉ set)
    (h2 : ∀ c, l.getLast? = some c → c ∉ set) : pyStrip set l = l := by
  unfold pyStrip
  rw [dropWhileSet_eq_self h1]
  rw [dropWhileSet_eq_self (by simpa [List.head?_reverse] using h2)]
  exact List.reverse_reverse l

theorem pyStrip_idem (set : List Char) (l : Str) :
    pyStrip set (pyStrip set l) = pyStrip set l :=
  pyStrip_eq_self (fun _ h => head?_pyStrip_not_mem h) (fun _ h => getLast?_pyStrip_not_mem h)

theorem dropWhileSet_congr {s₁ s₂ : List Char} (h : ∀ c, c ∈ s₁ ↔ c ∈ s₂) (l : Str) :
    dropWhileSet s₁ l = dropWhileSet s₂ l := by
  induction l with
  | nil => rfl
  | cons a rest ih =>
      by_cases ha : a ∈ s₁
      · rw [dropWhileSet, if_pos ha, dropWhileSet, if_pos ((h a).1 ha), ih]
      · rw [dropWhileSet, if_neg ha, dropWhileSet, if_neg (fun hb => ha ((h a).2 hb))]

theorem pyStrip_congr {s₁ s₂ : List Char} (h : ∀ c, c ∈ s₁ ↔ c ∈ s₂) (l : Str) :
    pyStrip s₁ l = pyStrip s₂ l := by
  unfold pyStrip
  rw [dropWhileSet_congr h, dropWhileSet_congr h]

theorem dropWhileSet_map {set : List Char} {f : Char → Char}
    (h : ∀ c, f c ∈ set ↔ c ∈ set) (l : Str) :
    dropWhileSet set (l.map f) = (dropWhileSet set l).map f := by
  induction l with
  | nil => rfl
  | cons a rest ih =>
      by_cases ha : a ∈ set
      · rw [List.map_cons, dropWhileSet, if_pos ((h a).2 ha), dropWhileSet, if_pos ha, ih]
      · rw [List.map_cons, dropWhileSet, if_neg (fun hb => ha ((h a).1 hb)),
          dropWhileSet, if_neg ha, List.map_cons]

theorem pyStrip_map {set : List Char} {f : Char → Char}
    (h : ∀ c, f c ∈ set ↔ c ∈ set) (l : Str) :
    pyStrip set (l.map f) = (pyStrip set l).map f := by
  unfold pyStrip
  rw [dropWhileSet_map h, ← List.map_reverse, dropWhileSet_map h, ← List.map_reverse]

/-! ## The sanitizer as a pointwise map -/

theorem foldl_replaceAllChar_eq_map (L : List Char) (s : Str) :
    L.foldl (fun acc ch => replaceAllChar ch '_' acc) s =
      s.map (fun c => L.foldl (fun x ch => if x = ch then '_' else x) c) := by
  induction L generalizing s with
  | nil => simp
  | cons ch L ih =>
      rw [List.foldl_cons, ih, replaceAllChar, List.map_map]
      rfl

theorem foldl_replace_fix {L : List Char} {c : Char} (h : c ∉ L) :
    L.foldl (fun x ch => if x = ch then '_' else x) c = c := by
  induction L with
  | nil => rfl
  | cons a L ih =>
      rw [List.mem_cons, not_or] at h
      rw [List.foldl_cons, if_neg h.1]
      exact ih h.2

theorem foldl_replace_eq_sanitizeChar {L : List Char} (hu : '_' ∉ L) (c : Char) :
    L.foldl (fun x ch => if x = ch then '_' else x) c = if c ∈ L then '_' else c := by
  induction L with
  | nil => rfl
  | cons a L ih =>
      rw [List.mem_cons, not_or] at hu
      by_cases hca : c = a
      · rw [List.foldl_cons, if_pos hca, foldl_replace_fix hu.2, if_pos (by simp [hca])]
      · rw [List.foldl_cons, if_neg hca, ih hu.2]
        by_cases hcL : c ∈ L
        · rw [if_pos hcL, if_pos (List.mem_cons_of_mem _ hcL)]
        · rw [if_neg hcL, if_neg (by simp [hca, hcL])]

theorem sanitize_path_eq_spaceRef (s : Str) : sanitize_path s = sanitizeSpaceRef s := by
  unfold sanitize_path sanitizeSpaceRef
  rw [foldl_replaceAllChar_eq_map]
  have h1 : (fun c => invalidChars.foldl (fun x ch => if x = ch then '_' else x) c) =
      sanitizeChar := by
    funext c
    rw [foldl_replace_eq_sanitizeChar (by decide)]
    rfl
  rw [h1]
  exact pyStrip_congr (fun c => by simp [or_comm]) _

theorem sanitizeChar_mem_strip_iff (c : Char) :
    sanitizeChar c ∈ ([' ', '.'] : List Char) ↔ c ∈ ([' ', '.'] : List Char) := by
  unfold sanitizeChar
  by_cases h : c ∈ invalidChars
  · rw [if_pos h]
    constructor
    · intro hu
      exact absurd hu (by decide)
    · intro hc
      exfalso
      rcases List.mem_cons.1 hc with h1 | h1
      · rw [h1] at h
        exact absurd h (by decide)
      · rcases List.mem_cons.1 h1 with h2 | h2
        · rw [h2] at h
          exact absurd h (by decide)
        · exact List.not_mem_nil _ h2
  · rw [if_neg h]

theorem sanitizeChar_idem (c : Char) : sanitizeChar (sanitizeChar c) = sanitizeChar c := by
  unfold sanitizeChar
  by_cases h : c ∈ invalidChars
  · rw [if_pos h, if_neg (by decide)]
  · rw [if_neg h, if_neg h]

/-! ## Category parsing lemmas -/

theorem mem_of_startsWith {pat l : Str} {c : Char}
    (h : startsWith pat l = true) (hc : c ∈ pat) : c ∈ l := by
  induction pat generalizing l with
  | nil => exact absurd hc (List.not_mem_nil c)
  | cons p ps ih =>
      cases l with
      | nil => exact absurd h (by simp [startsWith])
      | cons a rest =>
          rw [startsWith, Bool.and_eq_true, decide_eq_true_eq] at h
          rcases List.mem_cons.1 hc with hcp | hcp
          · exact List.mem_cons.2 (Or.inl (hcp.trans h.1))
          · exact List.mem_cons_of_mem _ (ih h.2 hcp)

theorem replaceSubGo_eq_self {pat rep : Str} {ch : Char} (hch : ch ∈ pat) :
    ∀ (fuel : Nat) (l : Str), ch ∉ l → replaceSubGo pat rep fuel l = l := by
  intro fuel
  induction fuel with
  | zero => intro l _; cases l <;> rfl
  | succ fuel ih =>
      intro l hl
      cases l with
      | nil => rfl
      | cons a rest =>
          have hs : startsWith pat (a :: rest) = false := by
            cases hsw : startsWith pat (a :: rest)
            · rfl
            · exact absurd (mem_of_startsWith hsw hch) hl
          rw [replaceSubGo, hs]
          simp only [Bool.false_eq_true, if_false]
          rw [ih rest (fun hr => hl (List.mem_cons_of_mem _ hr))]

theorem replaceSub_eq_self {pat rep l : Str} {ch : Char} (hch : ch ∈ pat) (h : ch ∉ l) :
    replaceSub pat rep l = l :=
  replaceSubGo_eq_self hch l.length l h

theorem pySplit_eq_self {sep : Char} {l : Str} (h : sep ∉ l) : pySplit sep l = [l] := by
  induction l with
  | nil => rfl
  | cons a rest ih =>
      rw [List.mem_cons, not_or] at h
      rw [pySplit, if_neg (fun e => h.1 e.symm), ih h.2]

theorem eq_sanitizeChar_of_mem_sanitize {s : Str} {c : Char} (h : c ∈ sanitize_path s) :
    ∃ a ∈ s, sanitizeChar a = c := by
  rw [sanitize_path_eq_spaceRef, sanitizeSpaceRef] at h
  have := mem_of_mem_pyStrip h
  exact List.mem_map.1 this

theorem slash_not_mem_sanitize (s : Str) : '/' ∉ sanitize_path s := by
  intro h
  obtain ⟨a, _, ha⟩ := eq_sanitizeChar_of_mem_sanitize h
  unfold sanitizeChar at ha
  by_cases hi : a ∈ invalidChars
  · rw [if_pos hi] at ha
    exact absurd ha (by decide)
  · rw [if_neg hi] at ha
    exact hi (ha ▸ (by decide : '/' ∈ invalidChars))

theorem sanitize_ne_dot (s : Str) : sanitize_path s ≠ ['.'] := by
  intro h
  rw [sanitize_path_eq_spaceRef, sanitizeSpaceRef] at h
  have : (pyStrip [' ', '.'] (s.map sanitizeChar)).getLast? = some '.' := by
    rw [h]; rfl
  exact getLast?_pyStrip_not_mem this (by decide)

theorem pyJoinStr_empty_seg (p : FsPath) : pyJoinStr p [] = p := by
  simp [pyJoinStr, pySplit]

theorem pyJoinStr_single_seg {seg : Str} (p : FsPath)
    (h1 : '/' ∉ seg) (h2 : seg ≠ ['.']) (h3 : seg ≠ []) :
    pyJoinStr p seg = p ++ [seg] := by
  rw [pyJoinStr, pySplit_eq_self h1]
  simp [List.filter, h2, h3]

theorem foldl_pyJoinStr_filter (parts : List Str)
    (h : ∀ q ∈ parts, '/' ∉ q ∧ q ≠ ['.']) :
    ∀ base, parts.foldl pyJoinStr base = base ++ parts.filter (fun q => decide (q ≠ [])) := by
  induction parts with
  | nil => intro base; simp
  | cons q parts ih =>
      intro base
      have hq := h q (List.mem_cons_self q parts)
      have hrest : ∀ r ∈ parts, '/' ∉ r ∧ r ≠ ['.'] :=
        fun r hr => h r (List.mem_cons_of_mem _ hr)
      rw [List.foldl_cons, ih hrest]
      by_cases hqe : q = []
      · subst hqe
        rw [pyJoinStr_empty_seg]
        simp [List.filter]
      · rw [pyJoinStr_single_seg base hq.1 hq.2 hqe]
        simp [List.filter, hqe]

/-! ## Claims about the sanitizer (C8, C9) -/

/-- C8 counterexample: on the input `"\ta"` the code's sanitizer keeps the
leading tab (its `strip('. ')` removes only dots and spaces), while the
claim's reference removes all leading whitespace. -/
theorem C8_whitespace_counterexample :
    sanitize_path "\ta".data ≠ sanitizeClaimRef "\ta".data := by
  decide

/-- C8 (amended): for every input string, `sanitize_path` equals the
reference definition in which every occurrence of each invalid character
is replaced by a single underscore and then all leading and trailing
space and dot characters (not all whitespace) are removed. -/
theorem C8_sanitize_matches_reference (s : Str) : sanitize_path s = sanitizeSpaceRef s :=
  sanitize_path_eq_spaceRef s

/-- C9: the sanitizer is idempotent: `sanitize(sanitize(x)) = sanitize(x)`
for every string `x`. -/
theorem C9_sanitize_idempotent (s : Str) :
    sanitize_path (sanitize_path s) = sanitize_path s := by
  rw [sanitize_path_eq_spaceRef s, sanitize_path_eq_spaceRef, sanitizeSpaceRef, sanitizeSpaceRef,
    ← pyStrip_map sanitizeChar_mem_strip_iff, List.map_map]
  have h : sanitizeChar ∘ sanitizeChar = sanitizeChar := funext sanitizeChar_idem
  rw [h, pyStrip_idem]

/-! ## Claims about the category resolver (C2, C3) -/

/-- C2 counterexample: the label `"."` sanitizes to the empty segment and
the resolver keeps that empty segment; no `"Uncategorized"` placeholder is
substituted. -/
theorem C2_no_placeholder_counterexample :
    resolveCategoryParts ".".data = [([] : Str)] ∧ ([] : Str) ≠ "Uncategorized".data := by
  constructor
  · decide
  · decide

/-- C2 (amended): when sanitizing a category segment yields the empty
string, the resolver substitutes nothing: the empty segment stays in the
segment list and is dropped when the directory chain is built, so the
chain below the output root consists of exactly the non-empty sanitized
segments. -/
theorem C2_empty_segments_dropped (output_base_dir : FsPath) (category : Str) :
    categoryPathOf output_base_dir category =
      output_base_dir ++ (resolveCategoryParts category).filter (fun q => decide (q ≠ [])) := by
  unfold categoryPathOf
  apply foldl_pyJoinStr_filter
  intro q hq
  simp only [resolveCategoryParts, List.mem_map] at hq
  obtain ⟨part, _, rfl⟩ := hq
  exact ⟨slash_not_mem_sanitize _, sanitize_ne_dot _⟩

/-- C3 counterexample: the label `"A/B"` contains neither `" > "` nor
`">"`, yet resolving it yields the two segments `A` and `B` (the code
splits on `"/"`), not the single segment `sanitize("A/B") = "A_B"`. -/
theorem C3_slash_counterexample :
    resolveCategoryParts "A/B".data ≠ [sanitize_path "A/B".data] := by
  decide

/-- C3 (amended): for every label containing neither `">"` (hence neither
`" > "`) nor `"/"`, resolving produces the single-segment path whose sole
segment is the sanitized, whitespace-trimmed label. -/
theorem C3_no_separator_single_segment (label : Str)
    (h1 : '>' ∉ label) (h2 : '/' ∉ label) :
    resolveCategoryParts label = [sanitize_path (pyStripWs label)] := by
  have e1 : replaceSub " > ".data "/".data label = label := replaceSub_eq_self (by decide) h1
  have e2 : replaceSub ">".data "/".data label = label := replaceSub_eq_self (by decide) h1
  simp only [resolveCategoryParts, e1, e2, pySplit_eq_self h2, List.map]

/-- Witness for C3: the separator-free label `"Taxes"` resolves to the
single sanitized segment. -/
theorem C3_no_separator_witness :
    resolveCategoryParts "Taxes".data = [sanitize_path (pyStripWs "Taxes".data)] :=
  C3_no_separator_single_segment "Taxes".data (by decide) (by decide)

/-! ## takeWhile and dropWhile helpers -/

theorem takeWhile_append_all {p : Char → Bool} {a : Str} (h : ∀ x ∈ a, p x = true) (b : Str) :
    (a ++ b).takeWhile p = a ++ b.takeWhile p := by
  induction a with
  | nil => rfl
  | cons x a ih =>
      have hx := h x (List.mem_cons_self x a)
      rw [List.cons_append, List.takeWhile_cons, hx]
      simp only [if_true]
      rw [ih (fun y hy => h y (List.mem_cons_of_mem _ hy)), List.cons_append]

theorem dropWhile_append_all {p : Char → Bool} {a : Str} (h : ∀ x ∈ a, p x = true) (b : Str) :
    (a ++ b).dropWhile p = b.dropWhile p := by
  induction a with
  | nil => rfl
  | cons x a ih =>
      have hx := h x (List.mem_cons_self x a)
      rw [List.cons_append, List.dropWhile_cons, hx]
      simp only [if_true]
      exact ih (fun y hy => h y (List.mem_cons_of_mem _ hy))

theorem dropWhile_all_nil {p : Char → Bool} {l : Str} (h : ∀ x ∈ l, p x = true) :
    l.dropWhile p = [] := by
  have := dropWhile_append_all h ([] : Str)
  rw [List.append_nil] at this
  exact this

theorem dropWhile_head_false {p : Char → Bool} {l : Str} {d : Char} {rest : Str}
    (h : l.dropWhile p = d :: rest) : p d = false := by
  induction l with
  | nil => exact absurd h (by simp)
  | cons a t ih =>
      rw [List.dropWhile_cons] at h
      cases hpa : p a
      · rw [hpa] at h
        simp only [Bool.false_eq_true, if_false, List.cons.injEq] at h
        exact h.1 ▸ hpa
      · rw [hpa] at h
        simp only [if_true] at h
        exact ih h

/-! ## `splitExt` (stem and suffix) lemmas -/

theorem pyStem_append_pySuffix (l : Str) : pyStem l ++ pySuffix l = l := by
  unfold pyStem pySuffix splitExt
  rcases hpost : l.reverse.dropWhile (fun c => decide (c ≠ '.')) with _ | ⟨d, rest⟩
  · simp [splitExtAux]
  · simp only [splitExtAux]
    by_cases hcond : rest = [] ∨ l.reverse.takeWhile (fun c => decide (c ≠ '.')) = []
    · rw [if_pos hcond]
      simp
    · rw [if_neg hcond]
      have hd : d = '.' := by
        have := dropWhile_head_false hpost
        simpa using this
      have hsplit : l.reverse.takeWhile (fun c => decide (c ≠ '.')) ++ '.' :: rest = l.reverse := by
        have := List.takeWhile_append_dropWhile (p := fun c => decide (c ≠ '.')) (l := l.reverse)
        rw [hpost, hd] at this
        exact this
      have e1 : ('.' :: (l.reverse.takeWhile (fun c => decide (c ≠ '.'))).reverse : Str) =
          ['.'] ++ (l.reverse.takeWhile (fun c => decide (c ≠ '.'))).reverse := rfl
      rw [e1, ← List.append_assoc, ← List.reverse_cons, ← List.reverse_append, hsplit,
        List.reverse_reverse]

theorem splitExt_spec (l : Str) :
    (pySuffix l = [] ∧ pyStem l = l) ∨
    (∃ e, pySuffix l = '.' :: e ∧ e ≠ [] ∧ '.' ∉ e ∧ pyStem l ≠ []) := by
  unfold pyStem pySuffix splitExt
  rcases hpost : l.reverse.dropWhile (fun c => decide (c ≠ '.')) with _ | ⟨d, rest⟩
  · left
    exact ⟨rfl, rfl⟩
  · simp only [splitExtAux]
    by_cases hcond : rest = [] ∨ l.reverse.takeWhile (fun c => decide (c ≠ '.')) = []
    · rw [if_pos hcond]
      left
      exact ⟨rfl, rfl⟩
    · rw [if_neg hcond]
      push_neg at hcond
      right
      refine ⟨(l.reverse.takeWhile (fun c => decide (c ≠ '.'))).reverse, rfl, ?_, ?_, ?_⟩
      · intro he
        exact hcond.2 (by simpa using congrArg List.reverse he)
      · intro hmem
        rw [List.mem_reverse] at hmem
        have := List.mem_takeWhile_imp hmem
        simp at this
      · intro he
        exact hcond.1 (by simpa using congrArg List.reverse he)

theorem splitExt_no_dot {l : Str} (h : '.' ∉ l) : pySuffix l = [] := by
  unfold pySuffix splitExt
  have hall : ∀ x ∈ l.reverse, (fun c => decide (c ≠ '.')) x = true := by
    intro x hx
    rw [List.mem_reverse] at hx
    simp only [decide_eq_true_eq]
    intro he
    exact h (he ▸ hx)
  rw [dropWhile_all_nil hall]
  rfl

theorem pySuffix_eq_nil_of_no_dot_tail {l : Str} (h : '.' ∉ l.drop 1) : pySuffix l = [] := by
  cases l with
  | nil => rfl
  | cons c t =>
      simp only [List.drop_succ_cons, List.drop_zero] at h
      by_cases hcd : c = '.'
      · subst hcd
        unfold pySuffix splitExt
        have hall : ∀ x ∈ t.reverse, (fun c => decide (c ≠ '.')) x = true := by
          intro x hx
          rw [List.mem_reverse] at hx
          simp only [decide_eq_true_eq]
          intro he
          exact h (he ▸ hx)
        rw [List.reverse_cons, takeWhile_append_all hall, dropWhile_append_all hall]
        simp [splitExtAux]
      · exact splitExt_no_dot (by
          intro hm
          rcases List.mem_cons.1 hm with hm | hm
          · exact hcd hm.symm
          · exact h hm)

theorem pyStem_of_suffix_nil {l : Str} (h : pySuffix l = []) : pyStem l = l := by
  have := pyStem_append_pySuffix l
  rw [h, List.append_nil] at this
  exact this

/-! ## Decimal digit lemmas -/

theorem digitChar_isDigit {m : Nat} (h : m < 10) : (digitChar m).isDigit = true := by
  interval_cases m <;> decide

theorem digitChar_val {m : Nat} (h : m < 10) : (digitChar m).toNat - 48 = m := by
  interval_cases m <;> decide

theorem dsVal_append_singleton (ds : Str) (d : Char) :
    dsVal (ds ++ [d]) = 10 * dsVal ds + (d.toNat - 48) := by
  unfold dsVal
  rw [List.foldl_append]
  rfl

theorem natDigitsGo_shape :
    ∀ (fuel n : Nat) (acc : Str), n < 10 ^ (fuel + 1) →
      ∃ ds, natDigitsGo (fuel + 1) n acc = ds ++ acc ∧ ds ≠ [] ∧
        (∀ c ∈ ds, c.isDigit = true) ∧ dsVal ds = n := by
  intro fuel
  induction fuel with
  | zero =>
      intro n acc h
      rw [pow_one] at h
      refine ⟨[digitChar n], ?_, by simp, ?_, ?_⟩
      · rw [natDigitsGo, if_pos h]
        rfl
      · intro c hc
        rw [List.mem_singleton] at hc
        exact hc ▸ digitChar_isDigit h
      · unfold dsVal
        simp [digitChar_val h]
  | succ fuel ih =>
      intro n acc h
      by_cases hn : n < 10
      · refine ⟨[digitChar n], ?_, by simp, ?_, ?_⟩
        · rw [natDigitsGo, if_pos hn]
          rfl
        · intro c hc
          rw [List.mem_singleton] at hc
          exact hc ▸ digitChar_isDigit hn
        · unfold dsVal
          simp [digitChar_val hn]
      · have hdiv : n / 10 < 10 ^ (fuel + 1) := by
          rw [Nat.div_lt_iff_lt_mul (by norm_num)]
          calc n < 10 ^ (fuel + 1 + 1) := h
            _ = 10 ^ (fuel + 1) * 10 := by ring
        obtain ⟨ds', hgo, hne, hdig, hval⟩ :=
          ih (n / 10) (digitChar (n % 10) :: acc) hdiv
        refine ⟨ds' ++ [digitChar (n % 10)], ?_, by simp, ?_, ?_⟩
        · rw [natDigitsGo, if_neg hn, hgo, List.append_assoc]
          rfl
        · intro c hc
          rcases List.mem_append.1 hc with hc | hc
          · exact hdig c hc
          · rw [List.mem_singleton] at hc
            exact hc ▸ digitChar_isDigit (Nat.mod_lt n (by norm_num))
        · rw [dsVal_append_singleton, hval, digitChar_val (Nat.mod_lt n (by norm_num))]
          exact Nat.div_add_mod n 10

theorem natDigits_spec (n : Nat) :
    natDigits n ≠ [] ∧ (∀ c ∈ natDigits n, c.isDigit = true) ∧ dsVal (natDigits n) = n := by
  have h10 : n < 10 ^ (n + 1) :=
    lt_of_lt_of_le (Nat.lt_pow_self (by norm_num) n)
      (Nat.pow_le_pow_right (by norm_num) (Nat.le_succ n))
  obtain ⟨ds, hgo, hne, hdig, hval⟩ := natDigitsGo_shape n n [] h10
  rw [List.append_nil] at hgo
  rw [natDigits, hgo]
  exact ⟨hne, hdig, hval⟩

theorem natDigits_inj {a b : Nat} (h : natDigits a = natDigits b) : a = b := by
  have hva := (natDigits_spec a).2.2
  have hvb := (natDigits_spec b).2.2
  rw [← hva, ← hvb, h]

/-! ## Suffix stability of the probed candidates -/

theorem pySuffix_suffixedName (name : Str)
    (hstab : pySuffix name ≠ [] ∨ '.' ∉ name.drop 1) (n : Nat) :
    pySuffix (suffixedName name n) = pySuffix name := by
  rcases splitExt_spec name with ⟨hsf, hst⟩ | ⟨e, hsf, hene, hedot, hstne⟩
  · rw [hsf]
    rcases hstab with hco | hco
    · exact absurd hsf hco
    · rw [suffixedName, hsf, hst, List.append_nil]
      apply pySuffix_eq_nil_of_no_dot_tail
      cases name with
      | nil =>
          simp only [List.nil_append, List.drop_succ_cons, List.drop_zero]
          intro hm
          have := (natDigits_spec n).2.1 '.' hm
          simp at this
      | cons c t =>
          simp only [List.cons_append, List.drop_succ_cons, List.drop_zero] at hco ⊢
          intro hm
          rcases List.mem_append.1 hm with hm | hm
          · exact hco hm
          · rcases List.mem_cons.1 hm with hm | hm
            · exact absurd hm (by decide)
            · have := (natDigits_spec n).2.1 '.' hm
              simp at this
  · rw [hsf]
    unfold pySuffix splitExt
    have harg : (suffixedName name n).reverse =
        e.reverse ++ '.' :: (pyStem name ++ '_' :: natDigits n).reverse := by
      rw [suffixedName, hsf, List.reverse_append, List.reverse_cons, List.append_assoc]
      rfl
    rw [harg]
    have hall1 : ∀ x ∈ e.reverse, (fun c => decide (c ≠ '.')) x = true := by
      intro x hx
      rw [List.mem_reverse] at hx
      simp only [decide_eq_true_eq]
      intro hx'
      exact hedot (hx' ▸ hx)
    rw [takeWhile_append_all hall1, dropWhile_append_all hall1]
    have htw : List.takeWhile (fun c => decide (c ≠ '.'))
        ('.' :: (pyStem name ++ '_' :: natDigits n).reverse) = [] := by
      simp [List.takeWhile_cons]
    have hdw : List.dropWhile (fun c => decide (c ≠ '.'))
        ('.' :: (pyStem name ++ '_' :: natDigits n).reverse) =
        '.' :: (pyStem name ++ '_' :: natDigits n).reverse := by
      simp [List.dropWhile_cons]
    rw [htw, hdw]
    simp only [splitExtAux, List.append_nil]
    rw [if_neg ?hcond]
    case hcond =>
      push_neg
      constructor
      · simp
      · intro hre
        rw [List.reverse_eq_nil_iff] at hre
        exact hene hre
    simp

/-! ## The probed candidates are pairwise distinct -/

theorem pySuffix_nil_or_dot (l : Str) : pySuffix l = [] ∨ ∃ e, pySuffix l = '.' :: e := by
  rcases splitExt_spec l with ⟨h, _⟩ | ⟨e, h, _, _, _⟩
  · exact Or.inl h
  · exact Or.inr ⟨e, h⟩

theorem takeWhile_isDigit_digits_append (n : Nat) {s : Str}
    (hs : s = [] ∨ ∃ e, s = '.' :: e) :
    (natDigits n ++ s).takeWhile Char.isDigit = natDigits n := by
  rw [takeWhile_append_all (fun x hx => (natDigits_spec n).2.1 x hx)]
  rcases hs with rfl | ⟨e, rfl⟩
  · simp
  · rw [List.takeWhile_cons]
    simp

theorem probeCand_inj (name : Str) :
    ∀ {j k : Nat}, probeCand name j = probeCand name k → j = k := by
  have hzero : ∀ b : Nat, probeCand name 0 ≠ probeCand name (b + 1) := by
    intro b h
    rw [probeCand, probeCand, List.append_assoc] at h
    have h' : pyStem name ++ pySuffix name =
        pyStem name ++ ('_' :: natDigits (b + 1) ++ pySuffix (probeCand name b)) := by
      rw [pyStem_append_pySuffix name]
      exact h
    have h2 := List.append_cancel_left h'
    rw [List.cons_append] at h2
    rcases pySuffix_nil_or_dot name with hn | ⟨e, hn⟩
    · rw [hn] at h2
      exact List.noConfusion h2
    · rw [hn] at h2
      injection h2 with h21 h22
      exact absurd h21 (by decide)
  intro j k h
  match j, k with
  | 0, 0 => rfl
  | 0, b + 1 => exact absurd h (hzero b)
  | a + 1, 0 => exact absurd h.symm (hzero a)
  | a + 1, b + 1 =>
      rw [probeCand, probeCand, List.append_assoc, List.append_assoc] at h
      have h2 := List.append_cancel_left h
      rw [List.cons_append, List.cons_append] at h2
      injection h2 with h21 h3
      have h4 : natDigits (a + 1) = natDigits (b + 1) := by
        have ha := takeWhile_isDigit_digits_append (a + 1)
          (pySuffix_nil_or_dot (probeCand name a))
        have hb := takeWhile_isDigit_digits_append (b + 1)
          (pySuffix_nil_or_dot (probeCand name b))
        rw [← ha, ← hb, h3]
      have := natDigits_inj h4
      omega

/-! ## The probing loop -/

theorem memFS_mem_keys {st : FS} {p : FsPath} (h : memFS st p = true) :
    p ∈ st.map Prod.fst := by
  induction st with
  | nil => simp [memFS, fsLookup] at h
  | cons e rest ih =>
      obtain ⟨q, c⟩ := e
      rw [memFS, fsLookup] at h
      by_cases hq : q = p
      · subst hq
        exact List.mem_cons_self _ _
      · rw [if_neg hq] at h
        exact List.mem_cons_of_mem _ (ih h)

theorem probeLoop_spec (st : FS) (dir : FsPath) (name : Str) :
    ∀ (fuel k : Nat),
      (∃ m, k ≤ m ∧ m < k + fuel ∧ memFS st (dir ++ [probeCand name m]) = false) →
      ∃ m, k ≤ m ∧
        probeLoop st dir (pyStem name) fuel (probeCand name k) (k + 1) = probeCand name m ∧
        memFS st (dir ++ [probeCand name m]) = false ∧
        ∀ j, k ≤ j → j < m → memFS st (dir ++ [probeCand name j]) = true := by
  intro fuel
  induction fuel with
  | zero =>
      intro k hex
      obtain ⟨m, hkm, hlt, _⟩ := hex
      omega
  | succ fuel ih =>
      intro k hex
      cases hmem : memFS st (dir ++ [probeCand name k])
      · refine ⟨k, le_refl k, ?_, hmem, fun j h1 h2 => absurd (lt_of_le_of_lt h1 h2) (lt_irrefl k)⟩
        rw [probeLoop, hmem]
        simp
      · obtain ⟨m, hkm, hlt, hfree⟩ := hex
        have hkm' : k + 1 ≤ m := by
          rcases Nat.eq_or_lt_of_le hkm with rfl | hlt'
          · rw [hmem] at hfree
            exact absurd hfree (by simp)
          · exact hlt'
        obtain ⟨m', h1, h2, h3, h4⟩ := ih (k + 1) ⟨m, hkm', by omega, hfree⟩
        refine ⟨m', le_trans (Nat.le_succ k) h1, ?_, h3, ?_⟩
        · rw [probeLoop, hmem]
          simp only [if_true]
          have hnext : pyStem name ++ ('_' :: natDigits (k + 1)) ++ pySuffix (probeCand name k) =
              probeCand name (k + 1) := rfl
          rw [hnext]
          exact h2
        · intro j hj1 hj2
          rcases Nat.eq_or_lt_of_le hj1 with rfl | hj
          · exact hmem
          · exact h4 j hj hj2

theorem exists_free_probeCand (st : FS) (dir : FsPath) (name : Str) :
    ∃ m, m ≤ st.length ∧ memFS st (dir ++ [probeCand name m]) = false := by
  by_contra hcon
  push_neg at hcon
  have hall : ∀ m ∈ Finset.range (st.length + 1),
      (dir ++ [probeCand name m]) ∈ st.map Prod.fst := by
    intro m hm
    rw [Finset.mem_range] at hm
    have hne := hcon m (by omega)
    apply memFS_mem_keys
    cases h : memFS st (dir ++ [probeCand name m])
    · exact absurd h hne
    · rfl
  have hinj : Set.InjOn (fun m => dir ++ [probeCand name m])
      ↑(Finset.range (st.length + 1)) := by
    intro a _ b _ hab
    have h1 : ([probeCand name a] : FsPath) = [probeCand name b] :=
      List.append_cancel_left hab
    have h2 : probeCand name a = probeCand name b := by
      simpa using h1
    exact probeCand_inj name h2
  have hsub : (Finset.range (st.length + 1)).image (fun m => dir ++ [probeCand name m]) ⊆
      (st.map Prod.fst).toFinset := by
    intro x hx
    rw [Finset.mem_image] at hx
    obtain ⟨m, hm, rfl⟩ := hx
    rw [List.mem_toFinset]
    exact hall m hm
  have hcard := Finset.card_le_card hsub
  rw [Finset.card_image_of_injOn hinj, Finset.card_range] at hcard
  have hlen := List.toFinset_card_le (st.map Prod.fst)
  rw [List.length_map] at hlen
  omega

theorem resolveCollision_spec (st : FS) (dir : FsPath) (name : Str) :
    ∃ m, resolveCollision st dir name = probeCand name m ∧
      memFS st (dir ++ [probeCand name m]) = false ∧
      ∀ j, j < m → memFS st (dir ++ [probeCand name j]) = true := by
  obtain ⟨m0, hm0le, hm0⟩ := exists_free_probeCand st dir name
  obtain ⟨m, _, heq, hfree, hocc⟩ :=
    probeLoop_spec st dir name (st.length + 1) 0 ⟨m0, Nat.zero_le _, by omega, hm0⟩
  exact ⟨m, heq, hfree, fun j hj => hocc j (Nat.zero_le j) hj⟩

/-! ## Claim C4: collision resolution -/

/-- C4 counterexample: for the original name `"file."` with `d/file.` and
`d/file._1` both present, the least unused `stem_n.ext` is `file._2`, but
the loop returns `file._2._1`: after the first iteration `dest_path` is
`file._1`, whose pathlib suffix is `._1`, and that suffix is appended. -/
theorem C4_suffix_drift_counterexample :
    memFS exCollisionFS (["d".data] ++ ["file.".data]) = true ∧
    memFS exCollisionFS (["d".data] ++ [suffixedName "file.".data 1]) = true ∧
    memFS exCollisionFS (["d".data] ++ [suffixedName "file.".data 2]) = false ∧
    resolveCollision exCollisionFS ["d".data] "file.".data ≠ suffixedName "file.".data 2 := by
  decide

/-- C4 (amended): the resolver returns the unsuffixed candidate when it is
unused; when the original name's pathlib suffix is stable under the
probing (its suffix is non-empty, or it has no dot after its first
character) and the candidate is used, the result is `stem_n.ext` for the
least `n ≥ 1` whose name is unused; and in every case — stable or not —
the returned name does not exist in the snapshot, so colliding documents
get distinct final names. -/
theorem C4_collision_resolution (st : FS) (dir : FsPath) (name : Str) :
    (memFS st (dir ++ [name]) = false → resolveCollision st dir name = name) ∧
    ((pySuffix name ≠ [] ∨ '.' ∉ name.drop 1) → memFS st (dir ++ [name]) = true →
      ∃ n, 1 ≤ n ∧ resolveCollision st dir name = suffixedName name n ∧
        memFS st (dir ++ [suffixedName name n]) = false ∧
        ∀ m, 1 ≤ m → m < n → memFS st (dir ++ [suffixedName name m]) = true) ∧
    memFS st (dir ++ [resolveCollision st dir name]) = false := by
  obtain ⟨m, heq, hfree, hocc⟩ := resolveCollision_spec st dir name
  refine ⟨?_, ?_, ?_⟩
  · intro h0
    rcases Nat.eq_zero_or_pos m with rfl | hm
    · exact heq
    · have hx := hocc 0 hm
      rw [show probeCand name 0 = name from rfl, h0] at hx
      exact absurd hx (by simp)
  · intro hstab h1
    have hpc : ∀ k, 1 ≤ k → probeCand name k = suffixedName name k := by
      intro k hk
      induction k with
      | zero => omega
      | succ k ihk =>
          rcases Nat.eq_zero_or_pos k with rfl | hpos
          · rfl
          · show pyStem name ++ ('_' :: natDigits (k + 1)) ++ pySuffix (probeCand name k) = _
            rw [ihk hpos, pySuffix_suffixedName name hstab k]
            rfl
    rcases Nat.eq_zero_or_pos m with rfl | hm
    · rw [show probeCand name 0 = name from rfl, h1] at hfree
      exact absurd hfree (by simp)
    · refine ⟨m, hm, ?_, ?_, ?_⟩
      · rw [heq, hpc m hm]
      · rw [← hpc m hm]
        exact hfree
      · intro j hj1 hj2
        rw [← hpc j hj1]
        exact hocc j hj2
  · rw [heq]
    exact hfree

/-- Witness for C4: on a snapshot holding `d/b.pdf`, the stable name
`b.pdf` collides, the resolver returns some suffixed `b_n.pdf` that is
not in the snapshot (least unused `n`), and the returned name is unused. -/
theorem C4_collision_witness :
    (pySuffix "b.pdf".data ≠ [] ∨ '.' ∉ List.drop 1 "b.pdf".data) ∧
    memFS exWitnessFS (["d".data] ++ ["b.pdf".data]) = true ∧
    (∃ n, 1 ≤ n ∧
      resolveCollision exWitnessFS ["d".data] "b.pdf".data = suffixedName "b.pdf".data n ∧
      memFS exWitnessFS (["d".data] ++ [suffixedName "b.pdf".data n]) = false ∧
      ∀ m, 1 ≤ m → m < n →
        memFS exWitnessFS (["d".data] ++ [suffixedName "b.pdf".data m]) = true) ∧
    memFS exWitnessFS (["d".data] ++ [resolveCollision exWitnessFS ["d".data] "b.pdf".data]) = false :=
  ⟨by decide, by decide,
    (C4_collision_resolution exWitnessFS ["d".data] "b.pdf".data).2.1 (by decide) (by decide),
    (C4_collision_resolution exWitnessFS ["d".data] "b.pdf".data).2.2⟩

/-! ## Per-document placement lemmas -/

theorem fsLookup_backup_preserved (st : FS) (bp src : FsPath) :
    fsLookup (match fsLookup st src with
              | some c => (bp, c) :: st
              | none => st) src = fsLookup st src := by
  cases h : fsLookup st src with
  | none => simp [h]
  | some c =>
      simp only [h]
      rw [fsLookup]
      by_cases hb : bp = src
      · rw [if_pos hb]
      · rw [if_neg hb]
        exact h

theorem memFS_fsMove_dst {st : FS} {src : FsPath} (dst : FsPath)
    (h : memFS st src = true) : memFS (fsMove st src dst) dst = true := by
  unfold memFS at h ⊢
  unfold fsMove
  cases hl : fsLookup st src with
  | none => rw [hl] at h; simp at h
  | some c => simp [hl, fsLookup]

theorem move_document_failure (env : MoveEnv) (st : FS) (file_path : FsPath)
    (category : Str) (output_base_dir : FsPath) (create_backups : Bool)
    (hmove : env.moveOk = false) :
    (move_document_to_category env st file_path category output_base_dir create_backups).1 = false ∧
    fsLookup (move_document_to_category env st file_path category output_base_dir create_backups).2
        file_path = fsLookup st file_path := by
  simp only [move_document_to_category, hmove, Bool.false_eq_true, if_false]
  refine ⟨trivial, ?_⟩
  by_cases hcb : create_backups = true
  · rw [if_pos hcb]
    by_cases hbk : env.backupOk = true
    · rw [if_pos hbk]
      exact fsLookup_backup_preserved st _ file_path
    · rw [if_neg hbk]
  · rw [if_neg hcb]

theorem move_document_backup_failure (env : MoveEnv) (st : FS) (file_path : FsPath)
    (category : Str) (output_base_dir : FsPath)
    (hb : env.backupOk = false) (hm : env.moveOk = true) :
    move_document_to_category env st file_path category output_base_dir true =
      (true, fsMove st file_path (destPathOf st output_base_dir category file_path)) := by
  simp [move_document_to_category, hb, hm]

/-! ## Claim C5: a failed move records MOVE_FAILED and leaves the source -/

/-- C5: when the move of a non-sentinel document with an existing source
fails, the record carries the terminal status `MOVE_FAILED` together with
an error message, and the source file's filesystem entry is unchanged (the
only state the failed placement may have added is a backup copy). -/
theorem C5_move_failure (env : MoveEnv) (input_dir output_base : FsPath)
    (create_backups : Bool) (st : FS) (doc : ClassifiedDoc)
    (hlabel : startsWith sentinelMark doc.subcategory = false)
    (hsrc : memFS st (pyJoinStr input_dir doc.file_name) = true)
    (hmove : env.moveOk = false) :
    (processOne env input_dir output_base create_backups st doc).1.status = some .MOVE_FAILED ∧
    (processOne env input_dir output_base create_backups st doc).1.error_message = some moveFailMsg ∧
    fsLookup (processOne env input_dir output_base create_backups st doc).2
        (pyJoinStr input_dir doc.file_name) =
      fsLookup st (pyJoinStr input_dir doc.file_name) := by
  have hm := move_document_failure env st (pyJoinStr input_dir doc.file_name) doc.subcategory
    output_base create_backups hmove
  simp only [processOne, hlabel, Bool.false_eq_true, if_false, hsrc, if_true, hm.1]
  exact ⟨trivial, trivial, hm.2⟩

/-- Witness for C5: one concrete non-sentinel document whose move fails. -/
theorem C5_move_failure_witness :
    (processOne { backupOk := true, moveOk := false, timestamp := "ts".data }
        ["in".data] ["out".data] true exSourceFS
        { file_name := "a.pdf".data, subcategory := "Taxes".data }).1.status =
      some DocStatus.MOVE_FAILED ∧
    (processOne { backupOk := true, moveOk := false, timestamp := "ts".data }
        ["in".data] ["out".data] true exSourceFS
        { file_name := "a.pdf".data, subcategory := "Taxes".data }).1.error_message =
      some moveFailMsg ∧
    fsLookup (processOne { backupOk := true, moveOk := false, timestamp := "ts".data }
        ["in".data] ["out".data] true exSourceFS
        { file_name := "a.pdf".data, subcategory := "Taxes".data }).2
        (pyJoinStr ["in".data] "a.pdf".data) =
      fsLookup exSourceFS (pyJoinStr ["in".data] "a.pdf".data) :=
  C5_move_failure { backupOk := true, moveOk := false, timestamp := "ts".data }
    ["in".data] ["out".data] true exSourceFS
    { file_name := "a.pdf".data, subcategory := "Taxes".data } (by decide) (by decide) rfl

/-! ## Claim C7: the classification-failure sentinel short-circuits -/

/-- C7: a document whose label starts with the sentinel `"ERROR:"` is
recorded with terminal status `CLASSIFICATION_FAILED` (the label becoming
the error message), no move, backup or directory creation happens for it
(the filesystem state is passed on unchanged), and the loop continues over
the remaining documents from that same state. -/
theorem C7_sentinel_short_circuit (env : MoveEnv) (input_dir output_base : FsPath)
    (create_backups : Bool) (st : FS) (doc : ClassifiedDoc)
    (rest : List (ClassifiedDoc × MoveEnv))
    (h : startsWith sentinelMark doc.subcategory = true) :
    organizeLoop input_dir output_base create_backups ((doc, env) :: rest) st =
      ({ doc with status := some .CLASSIFICATION_FAILED, error_message := some doc.subcategory } ::
          (organizeLoop input_dir output_base create_backups rest st).1,
        (organizeLoop input_dir output_base create_backups rest st).2) := by
  rw [organizeLoop]
  simp only [processOne, h, if_true]

/-- Witness for C7: a concrete sentinel-labelled document; the rest of
the batch (here empty) is processed from the untouched state. -/
theorem C7_sentinel_witness :
    organizeLoop ["in".data] ["out".data] true
        [({ file_name := "b.pdf".data, subcategory := errorSentinel },
          { backupOk := true, moveOk := true, timestamp := "ts".data })] exSourceFS =
      ({ file_name := "b.pdf".data
         subcategory := errorSentinel
         status := some DocStatus.CLASSIFICATION_FAILED
         error_message := some errorSentinel } ::
          (organizeLoop ["in".data] ["out".data] true [] exSourceFS).1,
        (organizeLoop ["in".data] ["out".data] true [] exSourceFS).2) :=
  C7_sentinel_short_circuit { backupOk := true, moveOk := true, timestamp := "ts".data }
    ["in".data] ["out".data] true exSourceFS
    { file_name := "b.pdf".data, subcategory := errorSentinel } [] (by decide)

/-! ## Claim C10: a failed backup is non-fatal -/

/-- C10: with backups enabled, when the backup attempt fails but the move
succeeds, the document still ends with status `SUCCESS`; the state passed
to the move is exactly the original state (the failed backup attempt
neither deleted nor mutated anything, in particular not the source), the
move is still performed and the destination exists afterwards. -/
theorem C10_backup_failure_nonfatal (env : MoveEnv) (input_dir output_base : FsPath)
    (st : FS) (doc : ClassifiedDoc)
    (hlabel : startsWith sentinelMark doc.subcategory = false)
    (hsrc : memFS st (pyJoinStr input_dir doc.file_name) = true)
    (hb : env.backupOk = false) (hm : env.moveOk = true) :
    processOne env input_dir output_base true st doc =
      ({ doc with
          status := some .SUCCESS,
          new_location := some (pathToString
            (pyJoinStr (pyJoinStr output_base doc.subcategory) doc.file_name)) },
        fsMove st (pyJoinStr input_dir doc.file_name)
          (destPathOf st output_base doc.subcategory (pyJoinStr input_dir doc.file_name))) ∧
    memFS (processOne env input_dir output_base true st doc).2
        (destPathOf st output_base doc.subcategory (pyJoinStr input_dir doc.file_name)) = true := by
  have hmd := move_document_backup_failure env st (pyJoinStr input_dir doc.file_name)
    doc.subcategory output_base hb hm
  have hfst : processOne env input_dir output_base true st doc =
      ({ doc with
          status := some .SUCCESS,
          new_location := some (pathToString
            (pyJoinStr (pyJoinStr output_base doc.subcategory) doc.file_name)) },
        fsMove st (pyJoinStr input_dir doc.file_name)
          (destPathOf st output_base doc.subcategory (pyJoinStr input_dir doc.file_name))) := by
    simp only [processOne, hlabel, Bool.false_eq_true, if_false, hsrc, if_true, hmd]
  refine ⟨hfst, ?_⟩
  rw [hfst]
  exact memFS_fsMove_dst _ hsrc

/-- Witness for C10: a concrete document whose backup fails and whose move
succeeds still ends in `SUCCESS`. -/
theorem C10_backup_failure_witness :
    processOne { backupOk := false, moveOk := true, timestamp := "ts".data }
        ["in".data] ["out".data] true exSourceFS
        { file_name := "a.pdf".data, subcategory := "Taxes".data } =
      ({ file_name := "a.pdf".data
         subcategory := "Taxes".data
         status := some DocStatus.SUCCESS
         new_location := some (pathToString
           (pyJoinStr (pyJoinStr ["out".data] "Taxes".data) "a.pdf".data)) },
        fsMove exSourceFS (pyJoinStr ["in".data] "a.pdf".data)
          (destPathOf exSourceFS ["out".data] "Taxes".data
            (pyJoinStr ["in".data] "a.pdf".data))) ∧
    memFS (processOne { backupOk := false, moveOk := true, timestamp := "ts".data }
        ["in".data] ["out".data] true exSourceFS
        { file_name := "a.pdf".data, subcategory := "Taxes".data }).2
        (destPathOf exSourceFS ["out".data] "Taxes".data
          (pyJoinStr ["in".data] "a.pdf".data)) = true :=
  C10_backup_failure_nonfatal { backupOk := false, moveOk := true, timestamp := "ts".data }
    ["in".data] ["out".data] exSourceFS
    { file_name := "a.pdf".data, subcategory := "Taxes".data } (by decide) (by decide) rfl rfl

/-! ## Batch accounting lemmas -/

theorem processOne_status_cases (env : MoveEnv) (input output : FsPath) (cb : Bool)
    (st : FS) (doc : ClassifiedDoc) :
    (processOne env input output cb st doc).1.status = some DocStatus.SUCCESS ∨
    (processOne env input output cb st doc).1.status = some DocStatus.CLASSIFICATION_FAILED ∨
    (processOne env input output cb st doc).1.status = some DocStatus.FILE_NOT_FOUND ∨
    (processOne env input output cb st doc).1.status = some DocStatus.MOVE_FAILED := by
  simp only [processOne]
  split
  · exact Or.inr (Or.inl rfl)
  · split
    · split
      · exact Or.inl rfl
      · exact Or.inr (Or.inr (Or.inr rfl))
    · exact Or.inr (Or.inr (Or.inl rfl))

theorem statusTotal_cons_of_status {d : ClassifiedDoc} {s : DocStatus}
    (h : d.status = some s) (l : List ClassifiedDoc) :
    statusTotal (d :: l) = statusTotal l + 1 := by
  unfold statusTotal countStatus
  rw [List.countP_cons, List.countP_cons, List.countP_cons, List.countP_cons]
  cases s <;> simp [h] <;> omega

theorem organizeLoop_spec (input output : FsPath) (cb : Bool) :
    ∀ (pairs : List (ClassifiedDoc × MoveEnv)) (st : FS),
      (organizeLoop input output cb pairs st).1.length = pairs.length ∧
      statusTotal (organizeLoop input output cb pairs st).1 = pairs.length ∧
      ∀ d ∈ (organizeLoop input output cb pairs st).1, (d.status).isSome = true := by
  intro pairs
  induction pairs with
  | nil =>
      intro st
      refine ⟨rfl, rfl, ?_⟩
      intro d hd
      simp [organizeLoop] at hd
  | cons pr rest ih =>
      intro st
      obtain ⟨pd, penv⟩ := pr
      obtain ⟨ihl, iht, ihs⟩ := ih (processOne penv input output cb st pd).2
      simp only [organizeLoop]
      refine ⟨?_, ?_, ?_⟩
      · simp only [List.length_cons, ihl]
      · rcases processOne_status_cases penv input output cb st pd with h | h | h | h <;>
          rw [statusTotal_cons_of_status h, iht, List.length_cons]
      · intro d hd
        rcases List.mem_cons.1 hd with rfl | hd
        · rcases processOne_status_cases penv input output cb st pd with h | h | h | h <;>
            rw [Option.isSome_iff_exists] <;> exact ⟨_, h⟩
        · exact ihs d hd

/-! ## Claim C6: one record per document, statuses account for the batch -/

/-- C6 counterexample: when creating the output directory structure fails,
the classification records are returned without any status, so the sum of
the per-status counts is `0`, not the number of input documents. -/
theorem C6_root_failure_counterexample :
    exRootFailRun.1.length = 1 ∧ statusTotal exRootFailRun.1 = 0 := by
  decide

/-- C6 (amended): provided creating the output directory structure
succeeds, processing a batch yields exactly one record per input document,
every record carries a terminal status, and the counts of the four
statuses sum to the number of input documents; the empty batch yields an
empty record set. -/
theorem C6_batch_accounting (env : BatchEnv) (documents : List (Str × Str))
    (input_dir output_dir : FsPath) (create_backups : Bool) (st : FS)
    (hlen : env.docs.length = documents.length)
    (hroot : env.rootOk = true) :
    (classify_and_organize_documents env documents input_dir output_dir create_backups st).1.length
        = documents.length ∧
    statusTotal
        (classify_and_organize_documents env documents input_dir output_dir create_backups st).1
        = documents.length ∧
    (∀ d ∈ (classify_and_organize_documents env documents input_dir output_dir create_backups st).1,
        (d.status).isSome = true) ∧
    (documents = [] →
      (classify_and_organize_documents env documents input_dir output_dir create_backups st).1
        = []) := by
  by_cases hemp : documents = []
  · subst hemp
    refine ⟨rfl, rfl, ?_, fun _ => rfl⟩
    intro d hd
    simp [classify_and_organize_documents] at hd
  · have hne : documents.isEmpty = false := by
      cases documents
      · exact absurd rfl hemp
      · rfl
    have heq : classify_and_organize_documents env documents input_dir output_dir create_backups st =
        organizeLoop input_dir output_dir create_backups
          ((classify_documents (env.docs.map (·.outcome)) documents).zip
            (env.docs.map (·.moveEnv))) st := by
      unfold classify_and_organize_documents
      rw [hne, hroot]
      rfl
    have hclen : (classify_documents (env.docs.map (·.outcome)) documents).length
        = documents.length := by
      unfold classify_documents
      rw [List.length_map, List.length_zip, List.length_map, hlen, min_self]
    have hplen : ((classify_documents (env.docs.map (·.outcome)) documents).zip
        (env.docs.map (·.moveEnv))).length = documents.length := by
      rw [List.length_zip, hclen, List.length_map, hlen, min_self]
    obtain ⟨hl, ht, hs⟩ := organizeLoop_spec input_dir output_dir create_backups
      ((classify_documents (env.docs.map (·.outcome)) documents).zip
        (env.docs.map (·.moveEnv))) st
    rw [heq]
    exact ⟨by rw [hl, hplen], by rw [ht, hplen], hs, fun h => absurd h hemp⟩

/-- Witness for C6: the one-document batch of the end-to-end example
yields one record, whose status counts sum to one. -/
theorem C6_batch_witness :
    exRun.1.length = 1 ∧ statusTotal exRun.1 = 1 ∧
    (∀ d ∈ exRun.1, (d.status).isSome = true) ∧
    (([(("a.pdf".data : Str), ("text".data : Str))] : List (Str × Str)) = [] → exRun.1 = []) :=
  C6_batch_accounting exBatchEnv [("a.pdf".data, "text".data)] ["in".data] ["out".data]
    false exSourceFS (by decide) rfl

/-! ## Claim C1: the recorded location versus the actual destination -/

/-- C1: the code's behavior at the failing input.  The single document
`a.pdf`, classified `"Healthcare > Lab Results"`, ends with status
`SUCCESS`; the record's `new_location` is the string
`out/Healthcare > Lab Results/a.pdf` (the raw label joined unparsed), yet
no file exists at that path — the file was actually moved to
`out/Healthcare/Lab Results/a.pdf`, and the two path strings differ. -/
theorem C1_recorded_location_mismatch :
    exRun.1.map (·.status) = [some DocStatus.SUCCESS] ∧
    exRun.1.map (·.new_location) = [some "out/Healthcare > Lab Results/a.pdf".data] ∧
    memFS exRun.2 ["out".data, "Healthcare".data, "Lab Results".data, "a.pdf".data] = true ∧
    memFS exRun.2 (pyJoinStr [] "out/Healthcare > Lab Results/a.pdf".data) = false ∧
    "out/Healthcare > Lab Results/a.pdf".data ≠
      pathToString ["out".data, "Healthcare".data, "Lab Results".data, "a.pdf".data] := by
  decide

end AutoSort
